import Mathlib

/-!
# Verification of the face-detection kiosk (legacy pipeline)

Shallow embedding of the state and operations of the repository's legacy
kiosk modules:

* `src/legacy/emotion_buffer.py` — `EmotionBuffer` (temporal majority vote);
* `src/legacy/audio_player.py`  — `AudioPlayer` (round-robin audio scheduler);
* `src/legacy/camera.py`        — frame downscaling and startup errors;
* `src/legacy/main.py`          — the Result-state audio behaviour.

Python floats are modelled as exact rationals (`ℚ`), wall-clock times are
passed in explicitly, and Python exceptions become explicit result values.
Field and method names follow the Python source.
-/

namespace Kiosk

/-- A buffered prediction `(timestamp, emotion, confidence)`, as stored in
`EmotionBuffer.predictions`. -/
abbrev Prediction : Type := ℚ × String × ℚ

/-- State of `EmotionBuffer` (emotion_buffer.py, lines 15-28).  Python's
`locked_confidence`/`lock_time` start as `None`, hence the `Option`s. -/
structure EmotionBuffer where
  buffer_duration : ℚ
  min_predictions : ℕ
  predictions : List Prediction
  locked_emotion : Option String
  locked_confidence : Option ℚ
  lock_time : Option ℚ
  deriving Repr, DecidableEq

namespace EmotionBuffer

/-- Default of the `buffer_duration` parameter of `EmotionBuffer.__init__`
(emotion_buffer.py line 15): `3.0` seconds. -/
def defaultBufferDuration : ℚ := 3

/-- Default of the `min_predictions` parameter of `EmotionBuffer.__init__`
(emotion_buffer.py line 15): `5`. -/
def defaultMinPredictions : ℕ := 5

/-- `EmotionBuffer.__init__` with explicit arguments. -/
def init (buffer_duration : ℚ) (min_predictions : ℕ) : EmotionBuffer :=
  { buffer_duration := buffer_duration
    min_predictions := min_predictions
    predictions := []
    locked_emotion := none
    locked_confidence := none
    lock_time := none }

/-- `EmotionBuffer()` with both constructor arguments left at their
defaults. -/
def initDefault : EmotionBuffer := init defaultBufferDuration defaultMinPredictions

/-- `EmotionBuffer.add_prediction` (lines 30-48).  `now` stands for the
`time.time()` call on line 41: append `(now, emotion, confidence)`, then keep
exactly the entries with `t >= now - buffer_duration`.  No-op when locked. -/
def add_prediction (b : EmotionBuffer) (now : ℚ) (emotion : String) (confidence : ℚ) :
    EmotionBuffer :=
  if b.locked_emotion.isSome then b
  else
    let kept := (b.predictions ++ [(now, emotion, confidence)]).filter
      (fun p => now - b.buffer_duration ≤ p.1)
    { b with predictions := kept }

/-- Timestamp of the first buffered prediction (`predictions[0][0]`);
junk value `0` on an empty buffer (Python would raise). -/
def firstT (b : EmotionBuffer) : ℚ := (b.predictions.head?.map (fun p => p.1)).getD 0

/-- Timestamp of the last buffered prediction (`predictions[-1][0]`);
junk value `0` on an empty buffer (Python would raise). -/
def lastT (b : EmotionBuffer) : ℚ := (b.predictions.getLast?.map (fun p => p.1)).getD 0

/-- `time_span = predictions[-1][0] - predictions[0][0]` (line 66). -/
def timeSpan (b : EmotionBuffer) : ℚ := lastT b - firstT b

/-- The emotion labels of the buffered predictions, in buffer order
(`emotions = [e for _, e, _ in self.predictions]`, line 71). -/
def labels (b : EmotionBuffer) : List String := b.predictions.map (fun p => p.2.1)

end EmotionBuffer

/-- Helper for `firstOccs`: the elements of the list not in `seen`, each kept
at its first occurrence. -/
def firstOccsAux (seen : List String) : List String → List String
  | [] => []
  | e :: rest =>
    if e ∈ seen then firstOccsAux seen rest
    else e :: firstOccsAux (e :: seen) rest

/-- The distinct elements of a list in order of first occurrence — the key
order of a Python `Counter` built from the list. -/
def firstOccs (es : List String) : List String := firstOccsAux [] es

/-- Left fold selecting the first element of `u` of maximal `cnt`-value (the
running best is replaced only on a strictly larger count). -/
def pickBest (cnt : String → ℕ) (u : List String) : Option (String × ℕ) :=
  u.foldl
    (fun acc e =>
      match acc with
      | none => some (e, cnt e)
      | some (_, c) => if c < cnt e then some (e, cnt e) else acc)
    none

/-- `Counter(es).most_common(1)[0]` (emotion_buffer.py line 73), as
`(label, count)`;  `none` on the empty list (where Python raises
`IndexError`).  CPython's `most_common` sorts the counter's items — kept in
first-occurrence order — by descending count with a stable sort, so the
winner is the label of maximal count whose first occurrence is earliest;
a left fold over the first-occurrence list that replaces the best only on a
strictly larger count computes exactly that. -/
def mostCommon (es : List String) : Option (String × ℕ) :=
  pickBest (fun e => es.count e) (firstOccs es)

namespace EmotionBuffer

/-- Lines 80-81: the average confidence over exactly the buffered predictions
carrying the label `me`. -/
def avgConfFor (b : EmotionBuffer) (me : String) : ℚ :=
  let confs := (b.predictions.filter (fun p => p.2.1 = me)).map (fun p => p.2.2)
  confs.sum / (confs.length : ℚ)

/-- `EmotionBuffer.get_stable_emotion` (lines 50-88).  Returns the Python
return value paired with the successor state; `now` stands for the
`time.time()` call on line 86.  The `mostCommon … = none` branch is
unreachable in Python runs that do not crash (`most_common(1)[0]` raises on
an empty buffer, which requires `min_predictions = 0`). -/
def get_stable_emotion (b : EmotionBuffer) (now : ℚ) :
    (Option String × ℚ) × EmotionBuffer :=
  match b.locked_emotion with
  | some e => ((some e, b.locked_confidence.getD 0), b)
  | none =>
    if b.predictions.length < b.min_predictions then ((none, 0), b)
    else if b.predictions.length ≠ 0 ∧ timeSpan b < b.buffer_duration * (7/10) then
      ((none, 0), b)
    else
      match mostCommon (labels b) with
      | none => ((none, 0), b)
      | some (me, cnt) =>
        if (cnt : ℚ) / (b.predictions.length : ℚ) < 2/5 then ((none, 0), b)
        else
          ((some me, avgConfFor b me),
           { b with
               locked_emotion := some me
               locked_confidence := some (avgConfFor b me)
               lock_time := some now })

/-- `EmotionBuffer.is_locked` (lines 90-92). -/
def is_locked (b : EmotionBuffer) : Bool := b.locked_emotion.isSome

/-- `EmotionBuffer.get_progress` (lines 94-112). -/
def get_progress (b : EmotionBuffer) : ℚ :=
  if b.locked_emotion.isSome then 1
  else if b.predictions = [] then 0
  else
    let time_progress := min 1 (timeSpan b / b.buffer_duration)
    let count_progress := min 1 ((b.predictions.length : ℚ) / (b.min_predictions : ℚ))
    min 1 ((time_progress + count_progress) / 2)

/-- `EmotionBuffer.reset` (lines 114-119). -/
def reset (b : EmotionBuffer) : EmotionBuffer :=
  { b with
      predictions := []
      locked_emotion := none
      locked_confidence := none
      lock_time := none }

end EmotionBuffer

/-- Replace-or-append assignment `d[k] = v` on an association-list model of a
Python dict. -/
def dictInsert {α : Type} (k : String) (v : α) : List (String × α) → List (String × α)
  | [] => [(k, v)]
  | (k', v') :: rest => if k' = k then (k, v) :: rest else (k', v') :: dictInsert k v rest

/-- State of `AudioPlayer` (audio_player.py, lines 29-58).  Sound objects are
abstracted to numeric clip identifiers; `sounds` and `_next_idx` are
association lists standing for the Python dicts; `initialized` is
`self._initialized`.  `audio_dir` and the filesystem-driven `_preload` are
not modelled — the claims quantify over arbitrary loaded clip tables. -/
structure AudioPlayer where
  max_duration : ℚ
  play_start_time : Option ℚ
  is_playing : Bool
  current_emotion : Option String
  initialized : Bool
  sounds : List (String × List ℕ)
  next_idx : List (String × ℕ)
  deriving Repr, DecidableEq

namespace AudioPlayer

/-- `AudioPlayer.play` (lines 104-132).  Returns the successor state and the
clip played (`none` when nothing is played).  The guard `idx < clips.length`
mirrors the `try`/`except` of lines 122-132: an out-of-range `clips[idx]`
would raise inside the `try`, leaving the state unchanged. -/
def play (ap : AudioPlayer) (now : ℚ) (emotion : String) : AudioPlayer × Option ℕ :=
  if ap.initialized = false then (ap, none)
  else if ap.is_playing = true then (ap, none)
  else
    match ap.sounds.lookup emotion with
    | none => (ap, none)
    | some [] => (ap, none)
    | some clips =>
      let idx := (ap.next_idx.lookup emotion).getD 0
      if idx < clips.length then
        ({ ap with
             next_idx := dictInsert emotion ((idx + 1) % clips.length) ap.next_idx
             play_start_time := some now
             is_playing := true
             current_emotion := some emotion },
         some (clips.getD idx 0))
      else (ap, none)

/-- `AudioPlayer.stop` (lines 157-163): the `pygame.mixer.stop()` call is an
environment effect; the field updates happen unconditionally. -/
def stop (ap : AudioPlayer) : AudioPlayer :=
  { ap with
      is_playing := false
      play_start_time := none
      current_emotion := none }

/-- `AudioPlayer.update` (lines 134-155); `now` is the `time.time()` call and
`busy` the `pygame.mixer.get_busy()` value.  Returns the successor state and
the Python return value. -/
def update (ap : AudioPlayer) (now : ℚ) (busy : Bool) : AudioPlayer × Bool :=
  if ap.is_playing = false then (ap, false)
  else
    let elapsed := now - ap.play_start_time.getD 0
    if ap.max_duration ≤ elapsed then (ap.stop, false)
    else if busy = false then ({ ap with is_playing := false }, false)
    else (ap, true)

end AudioPlayer

/-- One successful playback cycle of the claim's scenario: `Play()` followed
by playback completion (`Update()`/`Stop()` ending the session). -/
def playCycle (ap : AudioPlayer) (now : ℚ) (e : String) : AudioPlayer × Option ℕ :=
  let r := ap.play now e
  (r.1.stop, r.2)

/-- One frame of `EmotionKiosk._result` restricted to its audio effects
(main.py lines 550-553): while time-in-state is below `0.5` s the verdict's
clip is requested via `AudioPlayer.play`, then `AudioPlayer.update` runs.
`fr` is the frame's wall-clock time paired with the `mixer.get_busy()` value;
the second component of the result records whether this frame started a
playback. -/
def resultStep (emotion : String) (t_state : ℚ) (ap : AudioPlayer) (fr : ℚ × Bool) :
    AudioPlayer × Bool :=
  let pr := if fr.1 - t_state < 1/2 then ap.play fr.1 emotion else (ap, none)
  ((pr.1.update fr.1 fr.2).1, pr.2.isSome)

/-- A run of consecutive Result-state frames: final player state and the
number of frames that started a playback. -/
def resultRun (emotion : String) (t_state : ℚ) :
    AudioPlayer → List (ℚ × Bool) → AudioPlayer × ℕ
  | ap, [] => (ap, 0)
  | ap, fr :: rest =>
    let st := resultStep emotion t_state ap fr
    let r := resultRun emotion t_state st.1 rest
    (r.1, (if st.2 then 1 else 0) + r.2)

/-- A video frame, reduced to its pixel dimensions (`frame.shape[:2]`). -/
structure Frame where
  h : ℕ
  w : ℕ
  deriving Repr, DecidableEq

/-- The publication step of `Camera._reader_loop` for a successfully read
frame (camera.py lines 84-95): frames wider than `1300` are resized to width
`1280` and height `int(h * (1280 / w))` — modelled as `⌊h * 1280 / w⌋`, the
value the float expression yields whenever its double rounding agrees with
the exact rational — and all other frames are published unchanged. -/
def publishFrame (f : Frame) : Frame :=
  if 1300 < f.w then { w := 1280, h := f.h * 1280 / f.w } else f

/-- The Python exception classes relevant to camera startup. -/
inductive PyExc where
  | runtimeError : PyExc
  | connectionError : PyExc
  deriving Repr, DecidableEq

/-- Environment of a `Camera.__init__` call: whether `cv2.VideoCapture`
opens, and whether a first frame arrives within the 5-second deadline
(camera.py lines 42-78). -/
structure CamEnv where
  capOpens : Bool
  frameWithin5s : Bool
  deriving Repr, DecidableEq

/-- Outcome of `Camera.__init__`: `some` exception class when startup aborts,
`none` when construction succeeds.  The source raises `RuntimeError` both
when the device/stream cannot be opened (lines 44-57) and when no frame
arrives within the 5 s deadline (lines 77-78). -/
def cameraInitOutcome (env : CamEnv) : Option PyExc :=
  if env.capOpens = false then some PyExc.runtimeError
  else if env.frameWithin5s = false then some PyExc.runtimeError
  else none

/-- A concrete locked buffer state. -/
def lockedEx : EmotionBuffer :=
  { buffer_duration := 3
    min_predictions := 5
    predictions := [(0, "Happy", 1/2), (2, "Happy", 9/10)]
    locked_emotion := some "Happy"
    locked_confidence := some (7/10)
    lock_time := some 2 }

/-- A concrete unlocked buffer holding one entry that is about to expire. -/
def bufC3 : EmotionBuffer :=
  { buffer_duration := 3
    min_predictions := 5
    predictions := [(0, "Sad", 1/2)]
    locked_emotion := none
    locked_confidence := none
    lock_time := none }

/-- A reachable-shaped kiosk buffer (window `3`, minimum `8`): eight
predictions spanning the full window but with no 40% plurality. -/
def bufC4 : EmotionBuffer :=
  { buffer_duration := 3
    min_predictions := 8
    predictions :=
      [(0, "Happy", 1/2), (1/2, "Happy", 1/2), (1, "Happy", 1/2),
       (3/2, "Sad", 1/2), (2, "Sad", 1/2), (5/2, "Sad", 1/2),
       (11/4, "Neutral", 1/2), (3, "Neutral", 1/2)]
    locked_emotion := none
    locked_confidence := none
    lock_time := none }

/-- A concrete idle audio player with three Happy clips loaded. -/
def apEx : AudioPlayer :=
  { max_duration := 10
    play_start_time := none
    is_playing := false
    current_emotion := none
    initialized := true
    sounds := [("Happy", [10, 20, 30])]
    next_idx := [("Happy", 0)] }

/-- The clips played by four consecutive completed `Play()` cycles starting
from `apEx`. -/
def fourCyclePlays : List (Option ℕ) :=
  let c1 := playCycle apEx 0 "Happy"
  let c2 := playCycle c1.1 1 "Happy"
  let c3 := playCycle c2.1 2 "Happy"
  let c4 := playCycle c3.1 3 "Happy"
  [c1.2, c2.2, c3.2, c4.2]

/-- A concrete unlocked buffer ready to lock: three predictions over 2.75 s,
two of them "Happy". -/
def bufC1 : EmotionBuffer :=
  { buffer_duration := 3
    min_predictions := 2
    predictions := [(0, "Happy", 1/2), (5/2, "Happy", 3/4), (11/4, "Sad", 1/4)]
    locked_emotion := none
    locked_confidence := none
    lock_time := none }

/-- A concrete unlocked buffer with a genuine tie: "Sad" and "Happy" both
occur twice, "Sad" first. -/
def bufC10 : EmotionBuffer :=
  { buffer_duration := 3
    min_predictions := 4
    predictions := [(0, "Sad", 1), (1, "Happy", 1/2), (2, "Sad", 1), (3, "Happy", 1/2)]
    locked_emotion := none
    locked_confidence := none
    lock_time := none }

/-- A concrete audio player in the middle of a playback session. -/
def apBusy : AudioPlayer :=
  { max_duration := 10
    play_start_time := some 1
    is_playing := true
    current_emotion := some "Happy"
    initialized := true
    sounds := [("Happy", [10, 20, 30])]
    next_idx := [("Happy", 1)] }

end Kiosk

namespace Kiosk

open EmotionBuffer

/-- C2: once locked, `get_stable_emotion` answers the locked pair and leaves
the state untouched, and `add_prediction` is the identity; both therefore
stay that way until `reset`. -/
theorem locked_is_frozen (b : EmotionBuffer) (e : String) (c : ℚ)
    (hl : b.locked_emotion = some e) (hc : b.locked_confidence = some c) :
    (∀ now : ℚ, b.get_stable_emotion now = ((some e, c), b)) ∧
    (∀ (now : ℚ) (em : String) (conf : ℚ), b.add_prediction now em conf = b) := by
  constructor
  · intro now
    unfold get_stable_emotion
    rw [hl]
    simp [hc]
  · intro now em conf
    unfold add_prediction
    simp [hl]

/-- Witness for C2 at a concrete locked state. -/
theorem locked_is_frozen_witness :
    lockedEx.get_stable_emotion 4 = ((some "Happy", 7/10), lockedEx) ∧
    lockedEx.add_prediction 4 "Sad" 1 = lockedEx :=
  ⟨(locked_is_frozen lockedEx "Happy" (7/10) rfl rfl).1 4,
   (locked_is_frozen lockedEx "Happy" (7/10) rfl rfl).2 4 "Sad" 1⟩

/-- C3: while unlocked, `add_prediction` keeps exactly the old entries and
the new one that are within `buffer_duration` of the insertion time, so no
buffered entry is older than `buffer_duration` at insertion time. -/
theorem add_prediction_evicts_old (b : EmotionBuffer) (now : ℚ) (em : String) (c : ℚ)
    (hl : b.locked_emotion = none) :
    (∀ p : Prediction, p ∈ (b.add_prediction now em c).predictions ↔
       ((p ∈ b.predictions ∨ p = (now, em, c)) ∧ now - b.buffer_duration ≤ p.1)) ∧
    (∀ p ∈ (b.add_prediction now em c).predictions, now - p.1 ≤ b.buffer_duration) := by
  have hmem : ∀ p : Prediction, p ∈ (b.add_prediction now em c).predictions ↔
      ((p ∈ b.predictions ∨ p = (now, em, c)) ∧ now - b.buffer_duration ≤ p.1) := by
    intro p
    unfold add_prediction
    simp [hl, List.mem_filter, List.mem_append, or_and_right]
  refine ⟨hmem, ?_⟩
  intro p hp
  have h := ((hmem p).mp hp).2
  exact sub_le_comm.mp h

/-- Witness for C3: inserting at `t = 4` evicts the entry from `t = 0` and
keeps the new one, which is within the window. -/
theorem add_prediction_evicts_old_witness :
    (bufC3.add_prediction 4 "Happy" 1).predictions = [(4, "Happy", 1)] ∧
    (4 : ℚ) - (4 : ℚ) ≤ bufC3.buffer_duration := by
  refine ⟨by norm_num [bufC3, EmotionBuffer.add_prediction], ?_⟩
  exact (add_prediction_evicts_old bufC3 4 "Happy" 1 rfl).2 (4, "Happy", 1)
    (by norm_num [bufC3, EmotionBuffer.add_prediction])

/-- C4 (amended): under a positive window, a positive prediction minimum and
buffer timestamps in order, `get_progress` lies in `[0,1]`; it is `1` when
locked; while unlocked and nonempty it equals the plain average of the two
capped fractions (the outer cap of line 112 never bites); and while unlocked
it is `0` exactly on the empty buffer. -/
theorem get_progress_spec (b : EmotionBuffer)
    (hbd : 0 < b.buffer_duration) (hmin : 0 < b.min_predictions)
    (hts : b.firstT ≤ b.lastT) :
    (0 ≤ b.get_progress ∧ b.get_progress ≤ 1) ∧
    (b.locked_emotion.isSome → b.get_progress = 1) ∧
    (b.locked_emotion = none → b.predictions ≠ [] →
       b.get_progress =
         (min 1 (b.timeSpan / b.buffer_duration) +
          min 1 ((b.predictions.length : ℚ) / (b.min_predictions : ℚ))) / 2) ∧
    (b.locked_emotion = none → (b.get_progress = 0 ↔ b.predictions = [])) := by
  by_cases hlk : b.locked_emotion = none
  · by_cases hne : b.predictions = []
    · refine ⟨?_, ?_, ?_, ?_⟩
      · unfold get_progress
        simp [hlk, hne]
      · intro hs
        rw [hlk] at hs
        simp at hs
      · intro _ hcon
        exact absurd hne hcon
      · intro _
        unfold get_progress
        simp [hlk, hne]
    · have hspan : 0 ≤ b.timeSpan := sub_nonneg.mpr hts
      have htp0 : 0 ≤ min 1 (b.timeSpan / b.buffer_duration) :=
        le_min (by norm_num) (div_nonneg hspan hbd.le)
      have htp1 : min 1 (b.timeSpan / b.buffer_duration) ≤ 1 := min_le_left _ _
      have hlen : 0 < ((b.predictions.length : ℚ)) := by
        have hl : 0 < b.predictions.length := List.length_pos.mpr hne
        exact_mod_cast hl
      have hminq : 0 < ((b.min_predictions : ℚ)) := by exact_mod_cast hmin
      have hcp0 : 0 < min 1 ((b.predictions.length : ℚ) / (b.min_predictions : ℚ)) :=
        lt_min (by norm_num) (div_pos hlen hminq)
      have hcp1 : min 1 ((b.predictions.length : ℚ) / (b.min_predictions : ℚ)) ≤ 1 :=
        min_le_left _ _
      have havg1 :
          (min 1 (b.timeSpan / b.buffer_duration) +
           min 1 ((b.predictions.length : ℚ) / (b.min_predictions : ℚ))) / 2 ≤ 1 := by
        linarith
      have hval : b.get_progress =
          (min 1 (b.timeSpan / b.buffer_duration) +
           min 1 ((b.predictions.length : ℚ) / (b.min_predictions : ℚ))) / 2 := by
        unfold get_progress
        rw [hlk]
        simp only [Option.isSome_none, Bool.false_eq_true, if_false]
        rw [if_neg hne]
        exact min_eq_right havg1
      refine ⟨⟨?_, ?_⟩, ?_, ?_, ?_⟩
      · rw [hval]
        linarith
      · rw [hval]
        linarith
      · intro hs
        rw [hlk] at hs
        simp at hs
      · intro _ _
        exact hval
      · intro _
        rw [hval]
        constructor
        · intro h0
          exfalso
          have hpos : 0 < (min 1 (b.timeSpan / b.buffer_duration) +
              min 1 ((b.predictions.length : ℚ) / (b.min_predictions : ℚ))) / 2 := by
            linarith
          rw [h0] at hpos
          exact lt_irrefl 0 hpos
        · intro hcon
          exact absurd hcon hne
  · have hsome : b.locked_emotion.isSome = true := Option.ne_none_iff_isSome.mp hlk
    refine ⟨?_, ?_, ?_, ?_⟩
    · unfold get_progress
      rw [if_pos hsome]
      norm_num
    · intro _
      unfold get_progress
      rw [if_pos hsome]
    · intro hcon
      exact absurd hcon hlk
    · intro hcon
      exact absurd hcon hlk

/-- Counterexample to C4 as stated: `bufC4` is unlocked — and cannot lock,
`get_stable_emotion` still answers `(none, 0)` — yet `get_progress` is
already `1.0`, so `1.0` does not imply locked. -/
theorem get_progress_one_while_unlocked :
    bufC4.get_progress = 1 ∧ bufC4.locked_emotion = none ∧
    (bufC4.get_stable_emotion 3).1 = (none, 0) := by
  have hspan : bufC4.timeSpan = 3 - 0 := rfl
  refine ⟨?_, rfl, ?_⟩
  · unfold get_progress
    rw [hspan]
    norm_num [bufC4]
    exact List.cons_ne_nil _ _
  · have hmc : mostCommon bufC4.labels = some ("Happy", 3) := rfl
    unfold get_stable_emotion
    rw [show bufC4.locked_emotion = none from rfl]
    rw [hmc, hspan]
    norm_num [bufC4]

/-- Witness for C4's amended theorem at the concrete state `bufC4`. -/
theorem get_progress_spec_witness :
    ((0 ≤ bufC4.get_progress ∧ bufC4.get_progress ≤ 1) ∧
     (bufC4.locked_emotion.isSome → bufC4.get_progress = 1) ∧
     (bufC4.locked_emotion = none → bufC4.predictions ≠ [] →
        bufC4.get_progress =
          (min 1 (bufC4.timeSpan / bufC4.buffer_duration) +
           min 1 ((bufC4.predictions.length : ℚ) / (bufC4.min_predictions : ℚ))) / 2) ∧
     (bufC4.locked_emotion = none → (bufC4.get_progress = 0 ↔ bufC4.predictions = []))) :=
  get_progress_spec bufC4 (by norm_num [bufC4]) (by norm_num [bufC4])
    (by show (0 : ℚ) ≤ 3; norm_num)

theorem lookup_dictInsert {α : Type} (k : String) (v : α) (d : List (String × α)) :
    (dictInsert k v d).lookup k = some v := by
  induction d with
  | nil => simp [dictInsert, List.lookup]
  | cons p rest ih =>
    obtain ⟨k', v'⟩ := p
    by_cases h : k' = k
    · simp [dictInsert, h, List.lookup]
    · simp only [dictInsert, h, if_false, List.lookup]
      have hbeq : (k == k') = false := by simpa using Ne.symm h
      rw [hbeq]
      exact ih

/-- What a successful `AudioPlayer.play` call does, in full. -/
theorem play_success (ap : AudioPlayer) (now : ℚ) (e : String) (clips : List ℕ)
    (hinit : ap.initialized = true) (hnp : ap.is_playing = false)
    (hs : ap.sounds.lookup e = some clips)
    (hidx : (ap.next_idx.lookup e).getD 0 < clips.length) :
    ap.play now e =
      ({ ap with
           next_idx :=
             dictInsert e (((ap.next_idx.lookup e).getD 0 + 1) % clips.length) ap.next_idx
           play_start_time := some now
           is_playing := true
           current_emotion := some e },
       some (clips.getD ((ap.next_idx.lookup e).getD 0) 0)) := by
  cases clips with
  | nil => simp at hidx
  | cons c cs =>
    unfold AudioPlayer.play
    rw [hinit, hnp, hs]
    simp only [Bool.true_eq_false, Bool.false_eq_true, if_false]
    rw [if_pos hidx]

/-- C5: every successful `play` advances the category's round-robin cursor by
exactly `1` modulo the clip count and plays the clip at the old cursor. -/
theorem play_round_robin (ap : AudioPlayer) (now : ℚ) (e : String) (clips : List ℕ)
    (hinit : ap.initialized = true) (hnp : ap.is_playing = false)
    (hs : ap.sounds.lookup e = some clips)
    (hidx : (ap.next_idx.lookup e).getD 0 < clips.length) :
    ((ap.play now e).1.next_idx.lookup e).getD 0 =
      ((ap.next_idx.lookup e).getD 0 + 1) % clips.length ∧
    (ap.play now e).2 = some (clips.getD ((ap.next_idx.lookup e).getD 0) 0) := by
  rw [play_success ap now e clips hinit hnp hs hidx]
  exact ⟨by simp [lookup_dictInsert], rfl⟩

/-- Witness for C5: from `apEx` (clips `[10, 20, 30]`) four completed play
cycles play the clips `10, 20, 30, 10`, and one `play` call advances the
cursor from `0` to `1`. -/
theorem play_round_robin_witness :
    fourCyclePlays = [some 10, some 20, some 30, some 10] ∧
    ((apEx.play 0 "Happy").1.next_idx.lookup "Happy").getD 0 =
      ((apEx.next_idx.lookup "Happy").getD 0 + 1) % 3 := by
  refine ⟨by decide, ?_⟩
  exact (play_round_robin apEx 0 "Happy" [10, 20, 30] rfl rfl (by decide) (by decide)).1

/-- C6: `play` is a no-op — the whole scheduler state, cursor, session flag
and start time included, is returned unchanged — whenever a session is still
playing or the requested category has no clips. -/
theorem play_noop_busy_or_empty (ap : AudioPlayer) (now : ℚ) (e : String)
    (h : ap.is_playing = true ∨ ap.sounds.lookup e = none ∨ ap.sounds.lookup e = some []) :
    ap.play now e = (ap, none) := by
  unfold AudioPlayer.play
  by_cases hi : ap.initialized = false
  · rw [if_pos hi]
  · rw [if_neg hi]
    by_cases hp : ap.is_playing = true
    · rw [if_pos hp]
    · rw [if_neg hp]
      rcases h with h | h | h
      · exact absurd h hp
      · rw [h]
      · rw [h]

/-- Witness for C6 at a concrete busy player. -/
theorem play_noop_busy_or_empty_witness :
    apBusy.play 2 "Happy" = (apBusy, none) :=
  play_noop_busy_or_empty apBusy 2 "Happy" (Or.inl rfl)

/-- C8 (amended): the reader loop publishes frames at width at most `1300`
unchanged, and downscales wider ones to width `1280` with the
aspect-preserving height `⌊h·1280/w⌋` (so `h'/1280` differs from `h/w` only
by the truncation). -/
theorem publishFrame_spec (f : Frame) :
    (f.w ≤ 1300 → publishFrame f = f) ∧
    (1300 < f.w →
       (publishFrame f).w = 1280 ∧
       (publishFrame f).h * f.w ≤ f.h * 1280 ∧
       f.h * 1280 < ((publishFrame f).h + 1) * f.w) := by
  constructor
  · intro hle
    unfold publishFrame
    rw [if_neg (by omega)]
  · intro hgt
    have hw : 0 < f.w := by omega
    unfold publishFrame
    rw [if_pos hgt]
    refine ⟨rfl, Nat.div_mul_le_self _ _, ?_⟩
    exact (Nat.div_lt_iff_lt_mul hw).mp (Nat.lt_succ_self _)

/-- Counterexample to C8 as stated: a frame 1290 pixels wide — wider than
1280 — is published unchanged, not downscaled. -/
theorem frame_1290_published_unchanged :
    publishFrame ⟨720, 1290⟩ = ⟨720, 1290⟩ ∧ 1280 < 1290 := by
  constructor
  · decide
  · decide

/-- Witness for C8 at a concrete 1400-pixel-wide frame. -/
theorem publishFrame_spec_witness :
    publishFrame ⟨900, 1400⟩ = ⟨900, 1400⟩ ∨
    ((publishFrame ⟨900, 1400⟩).w = 1280 ∧
     (publishFrame ⟨900, 1400⟩).h * 1400 ≤ 900 * 1280 ∧
     900 * 1280 < ((publishFrame ⟨900, 1400⟩).h + 1) * 1400) :=
  Or.inr ((publishFrame_spec ⟨900, 1400⟩).2 (by decide))

/-- C9 (amended): camera startup succeeds exactly when the device/stream
opens and a first frame arrives within the 5 s deadline, and every failure
raises `RuntimeError` (not `ConnectionError`). -/
theorem camera_init_spec (env : CamEnv) :
    (cameraInitOutcome env = none ↔
       (env.capOpens = true ∧ env.frameWithin5s = true)) ∧
    (∀ exc, cameraInitOutcome env = some exc → exc = PyExc.runtimeError) := by
  obtain ⟨o, f⟩ := env
  constructor
  · cases o <;> cases f <;> simp [cameraInitOutcome]
  · intro exc h
    cases o <;> cases f <;> simp [cameraInitOutcome] at h <;> exact h.symm

/-- Counterexample to C9 as stated: with an unopenable device the
constructor raises `RuntimeError`, which is not `ConnectionError`. -/
theorem camera_init_raises_runtime_error :
    cameraInitOutcome ⟨false, true⟩ = some PyExc.runtimeError ∧
    PyExc.runtimeError ≠ PyExc.connectionError := by
  constructor
  · decide
  · decide

/-- Witness for C9 at the concrete failing environment. -/
theorem camera_init_spec_witness :
    (cameraInitOutcome ⟨false, false⟩ = none ↔
       ((⟨false, false⟩ : CamEnv).capOpens = true ∧
        (⟨false, false⟩ : CamEnv).frameWithin5s = true)) ∧
    (∀ exc, cameraInitOutcome ⟨false, false⟩ = some exc → exc = PyExc.runtimeError) :=
  camera_init_spec ⟨false, false⟩

theorem resultRun_cons (emotion : String) (t_state : ℚ) (ap : AudioPlayer) (fr : ℚ × Bool)
    (rest : List (ℚ × Bool)) :
    resultRun emotion t_state ap (fr :: rest) =
      ((resultRun emotion t_state (resultStep emotion t_state ap fr).1 rest).1,
       (if (resultStep emotion t_state ap fr).2 then 1 else 0) +
         (resultRun emotion t_state (resultStep emotion t_state ap fr).1 rest).2) := rfl

theorem resultRun_append (emotion : String) (t_state : ℚ) :
    ∀ (xs ys : List (ℚ × Bool)) (ap : AudioPlayer),
      resultRun emotion t_state ap (xs ++ ys) =
        ((resultRun emotion t_state (resultRun emotion t_state ap xs).1 ys).1,
         (resultRun emotion t_state ap xs).2 +
           (resultRun emotion t_state (resultRun emotion t_state ap xs).1 ys).2) := by
  intro xs
  induction xs with
  | nil =>
    intro ys ap
    simp [resultRun]
  | cons fr rest ih =>
    intro ys ap
    simp only [List.cons_append, resultRun_cons, ih]
    simp [Nat.add_assoc]

/-- Frames past the 0.5 s entry window never start a playback. -/
theorem resultRun_no_window_no_starts (emotion : String) (t_state : ℚ) :
    ∀ frames : List (ℚ × Bool), (∀ fr ∈ frames, ¬(fr.1 - t_state < 1/2)) →
      ∀ ap : AudioPlayer, (resultRun emotion t_state ap frames).2 = 0 := by
  intro frames
  induction frames with
  | nil =>
    intro _ ap
    rfl
  | cons fr rest ih =>
    intro hf ap
    have hfr := hf fr (List.mem_cons_self fr rest)
    have hrest : ∀ f ∈ rest, ¬(f.1 - t_state < 1/2) :=
      fun f hm => hf f (List.mem_cons_of_mem fr hm)
    unfold resultRun
    have hstep : resultStep emotion t_state ap fr = ((AudioPlayer.update ap fr.1 fr.2).1, false) := by
      unfold resultStep
      rw [if_neg hfr]
      rfl
    rw [hstep]
    simp [ih hrest]

/-- While a session that began no earlier than the state entry is playing,
an in-window busy frame leaves the player untouched and starts nothing. -/
theorem resultStep_playing_steady (emotion : String) (t_state ts : ℚ) (ap : AudioPlayer)
    (fr : ℚ × Bool)
    (hp : ap.is_playing = true) (hst : ap.play_start_time = some ts)
    (hts : t_state ≤ ts) (hmax : 1/2 ≤ ap.max_duration)
    (hw : fr.1 - t_state < 1/2) (hb : fr.2 = true) :
    resultStep emotion t_state ap fr = (ap, false) := by
  have hplay : ap.play fr.1 emotion = (ap, none) := by
    unfold AudioPlayer.play
    by_cases hi : ap.initialized = false
    · rw [if_pos hi]
    · rw [if_neg hi, if_pos hp]
  have hupd : ap.update fr.1 fr.2 = (ap, true) := by
    unfold AudioPlayer.update
    rw [if_neg (by simp [hp])]
    rw [hst]
    simp only [Option.getD_some]
    rw [if_neg (by push_neg; linarith), if_neg (by simp [hb])]
  unfold resultStep
  rw [if_pos hw, hplay]
  simp [hupd]

/-- A steady playing session absorbs any run of in-window busy frames. -/
theorem resultRun_playing_steady (emotion : String) (t_state ts : ℚ) :
    ∀ frames : List (ℚ × Bool), (∀ fr ∈ frames, fr.1 - t_state < 1/2 ∧ fr.2 = true) →
      ∀ ap : AudioPlayer, ap.is_playing = true → ap.play_start_time = some ts →
        t_state ≤ ts → 1/2 ≤ ap.max_duration →
        resultRun emotion t_state ap frames = (ap, 0) := by
  intro frames
  induction frames with
  | nil =>
    intro _ ap _ _ _ _
    rfl
  | cons fr rest ih =>
    intro hf ap hp hst hts hmax
    have h1 := hf fr (List.mem_cons_self fr rest)
    have hstep := resultStep_playing_steady emotion t_state ts ap fr hp hst hts hmax h1.1 h1.2
    unfold resultRun
    rw [hstep]
    simp [ih (fun f hm => hf f (List.mem_cons_of_mem fr hm)) ap hp hst hts hmax]

/-- An idle player with clips for the label starts playback on an in-window
busy frame, and keeps the session open through the frame's `update`. -/
theorem resultStep_starts (emotion : String) (t_state : ℚ) (ap : AudioPlayer)
    (clips : List ℕ) (fr : ℚ × Bool)
    (hnp : ap.is_playing = false) (hinit : ap.initialized = true)
    (hs : ap.sounds.lookup emotion = some clips)
    (hidx : (ap.next_idx.lookup emotion).getD 0 < clips.length)
    (hmax : 1/2 ≤ ap.max_duration)
    (hw : fr.1 - t_state < 1/2) (hb : fr.2 = true) :
    ∃ ap' : AudioPlayer,
      resultStep emotion t_state ap fr = (ap', true) ∧
      ap'.is_playing = true ∧ ap'.play_start_time = some fr.1 ∧
      ap'.max_duration = ap.max_duration := by
  have hplay := play_success ap fr.1 emotion clips hinit hnp hs hidx
  set ap' : AudioPlayer :=
    { ap with
        next_idx :=
          dictInsert emotion (((ap.next_idx.lookup emotion).getD 0 + 1) % clips.length)
            ap.next_idx
        play_start_time := some fr.1
        is_playing := true
        current_emotion := some emotion } with hap'
  have hupd : ap'.update fr.1 fr.2 = (ap', true) := by
    unfold AudioPlayer.update
    rw [if_neg (by simp [hap'])]
    rw [hap']
    simp only [Option.getD_some]
    rw [if_neg (by push_neg; simp only [sub_self]; linarith), if_neg (by simp [hb])]
  refine ⟨ap', ?_, rfl, rfl, rfl⟩
  unfold resultStep
  rw [if_pos hw, hplay]
  simp [hupd]

/-- C7: over a Result-state visit whose frames split into a nonempty entry
window (time-in-state below 0.5 s, mixer busy once started) followed by
out-of-window frames, an idle, initialized player with clips for the verdict
label and the default-sized `max_duration` starts playback exactly once, and
that start happens in the entry window (the remaining frames start none). -/
theorem result_state_plays_once (emotion : String) (t_state : ℚ) (ap : AudioPlayer)
    (clips : List ℕ) (wins rest : List (ℚ × Bool))
    (hwne : wins ≠ [])
    (hwin : ∀ fr ∈ wins, fr.1 - t_state < 1/2 ∧ fr.2 = true)
    (hafter : ∀ fr ∈ wins, t_state ≤ fr.1)
    (hrest : ∀ fr ∈ rest, ¬(fr.1 - t_state < 1/2))
    (hnp : ap.is_playing = false) (hinit : ap.initialized = true)
    (hs : ap.sounds.lookup emotion = some clips)
    (hidx : (ap.next_idx.lookup emotion).getD 0 < clips.length)
    (hmax : 1/2 ≤ ap.max_duration) :
    (resultRun emotion t_state ap (wins ++ rest)).2 = 1 := by
  obtain ⟨w, ws, rfl⟩ := List.exists_cons_of_ne_nil hwne
  have hw1 := hwin w (List.mem_cons_self w ws)
  obtain ⟨ap', hstep, hp', hst', hmax'⟩ :=
    resultStep_starts emotion t_state ap clips w hnp hinit hs hidx hmax hw1.1 hw1.2
  have hmax'2 : 1/2 ≤ ap'.max_duration := by rw [hmax']; exact hmax
  have hts' : t_state ≤ w.1 := hafter w (List.mem_cons_self w ws)
  have hws : resultRun emotion t_state ap' ws = (ap', 0) :=
    resultRun_playing_steady emotion t_state w.1 ws
      (fun f hm => hwin f (List.mem_cons_of_mem w hm)) ap' hp' hst' hts' hmax'2
  have hrest0 : (resultRun emotion t_state ap' rest).2 = 0 :=
    resultRun_no_window_no_starts emotion t_state rest hrest ap'
  show (resultRun emotion t_state ap (w :: (ws ++ rest))).2 = 1
  unfold resultRun
  rw [hstep]
  simp only []
  rw [resultRun_append emotion t_state ws rest ap', hws]
  simp [hrest0]

/-- A Result-state visit for the witness: entry at `t_state = 0`, frames at
`t = 0` and `t = 1/4` inside the window, one frame at `t = 3` after it. -/
theorem result_state_plays_once_witness :
    (resultRun "Happy" 0 apEx ([(0, true), (1/4, true)] ++ [(3, true)])).2 = 1 := by
  refine result_state_plays_once "Happy" 0 apEx [10, 20, 30]
    [(0, true), (1/4, true)] [(3, true)] (by simp) ?_ ?_ ?_ rfl rfl (by decide) (by decide) ?_
  · intro fr hfr
    simp only [List.mem_cons, List.not_mem_nil, or_false] at hfr
    rcases hfr with h | h <;> subst h <;> norm_num
  · intro fr hfr
    simp only [List.mem_cons, List.not_mem_nil, or_false] at hfr
    rcases hfr with h | h <;> subst h <;> norm_num
  · intro fr hfr
    simp only [List.mem_cons, List.not_mem_nil, or_false] at hfr
    rw [hfr]
    norm_num
  · show (1:ℚ)/2 ≤ apEx.max_duration
    norm_num [apEx]

theorem mem_firstOccsAux :
    ∀ (l seen : List String) (x : String),
      x ∈ firstOccsAux seen l ↔ x ∈ l ∧ x ∉ seen := by
  intro l
  induction l with
  | nil =>
    intro seen x
    simp [firstOccsAux]
  | cons e t ih =>
    intro seen x
    by_cases he : e ∈ seen
    · rw [firstOccsAux, if_pos he, ih]
      constructor
      · rintro ⟨hx, hs⟩
        exact ⟨List.mem_cons_of_mem e hx, hs⟩
      · rintro ⟨hx, hs⟩
        rcases List.mem_cons.mp hx with h | h
        · subst h
          exact absurd he hs
        · exact ⟨h, hs⟩
    · rw [firstOccsAux, if_neg he]
      constructor
      · intro hx
        rcases List.mem_cons.mp hx with h | h
        · subst h
          exact ⟨List.mem_cons_self x t, he⟩
        · obtain ⟨h1, h2⟩ := (ih (e :: seen) x).mp h
          exact ⟨List.mem_cons_of_mem e h1, fun hc => h2 (List.mem_cons_of_mem e hc)⟩
      · rintro ⟨hx, hs⟩
        by_cases hxe : x = e
        · subst hxe
          exact List.mem_cons_self x _
        · rcases List.mem_cons.mp hx with h | h
          · exact absurd h hxe
          · refine List.mem_cons_of_mem e ((ih (e :: seen) x).mpr ⟨h, ?_⟩)
            intro hc
            rcases List.mem_cons.mp hc with h' | h'
            · exact hxe h'
            · exact hs h'

theorem nodup_firstOccsAux :
    ∀ (l seen : List String), (firstOccsAux seen l).Nodup := by
  intro l
  induction l with
  | nil =>
    intro seen
    simp [firstOccsAux]
  | cons e t ih =>
    intro seen
    by_cases he : e ∈ seen
    · rw [firstOccsAux, if_pos he]
      exact ih seen
    · rw [firstOccsAux, if_neg he]
      refine List.nodup_cons.mpr ⟨?_, ih (e :: seen)⟩
      intro hc
      exact ((mem_firstOccsAux t (e :: seen) e).mp hc).2 (List.mem_cons_self e seen)

/-- `firstOccsAux` preserves the relative order of first occurrences. -/
theorem indexOf_firstOccsAux_le_iff :
    ∀ (l seen : List String) (x y : String), x ∈ l → y ∈ l → x ∉ seen → y ∉ seen →
      ((firstOccsAux seen l).indexOf x ≤ (firstOccsAux seen l).indexOf y ↔
        l.indexOf x ≤ l.indexOf y) := by
  intro l
  induction l with
  | nil =>
    intro seen x y hx
    simp at hx
  | cons e t ih =>
    intro seen x y hx hy hxs hys
    by_cases he : e ∈ seen
    · have hxe : x ≠ e := fun hc => hxs (hc ▸ he)
      have hye : y ≠ e := fun hc => hys (hc ▸ he)
      have hxt : x ∈ t := by
        rcases List.mem_cons.mp hx with h | h
        · exact absurd h hxe
        · exact h
      have hyt : y ∈ t := by
        rcases List.mem_cons.mp hy with h | h
        · exact absurd h hye
        · exact h
      rw [firstOccsAux, if_pos he,
          List.indexOf_cons_ne t (Ne.symm hxe), List.indexOf_cons_ne t (Ne.symm hye),
          Nat.succ_le_succ_iff]
      exact ih seen x y hxt hyt hxs hys
    · rw [firstOccsAux, if_neg he]
      by_cases hxe : x = e
      · subst hxe
        rw [List.indexOf_cons_self, List.indexOf_cons_self]
        simp [Nat.zero_le]
      · by_cases hye : y = e
        · subst hye
          rw [List.indexOf_cons_ne _ (Ne.symm hxe), List.indexOf_cons_self,
              List.indexOf_cons_ne t (Ne.symm hxe), List.indexOf_cons_self]
          omega
        · have hxt : x ∈ t := by
            rcases List.mem_cons.mp hx with h | h
            · exact absurd h hxe
            · exact h
          have hyt : y ∈ t := by
            rcases List.mem_cons.mp hy with h | h
            · exact absurd h hye
            · exact h
          have hxs' : x ∉ e :: seen := by
            intro hc
            rcases List.mem_cons.mp hc with h | h
            · exact hxe h
            · exact hxs h
          have hys' : y ∉ e :: seen := by
            intro hc
            rcases List.mem_cons.mp hc with h | h
            · exact hye h
            · exact hys h
          rw [List.indexOf_cons_ne _ (Ne.symm hxe), List.indexOf_cons_ne _ (Ne.symm hye),
              List.indexOf_cons_ne t (Ne.symm hxe), List.indexOf_cons_ne t (Ne.symm hye)]
          simp only [Nat.succ_le_succ_iff]
          exact ih (e :: seen) x y hxt hyt hxs' hys'

/-- Spec of the strict-replacement left fold of `pickBest`, run from a seeded
best `b`: it returns the first element of `b :: u` of maximal count. -/
theorem foldl_pickBest_spec (cnt : String → ℕ) :
    ∀ (u : List String) (b : String),
      ∃ r : String,
        (u.foldl
          (fun acc e =>
            match acc with
            | none => some (e, cnt e)
            | some (_, c) => if c < cnt e then some (e, cnt e) else acc)
          (some (b, cnt b))) = some (r, cnt r) ∧
        r ∈ b :: u ∧
        (∀ x ∈ b :: u, cnt x ≤ cnt r) ∧
        ((b :: u).Nodup → ∀ x ∈ b :: u, cnt x = cnt r →
          (b :: u).indexOf r ≤ (b :: u).indexOf x) := by
  intro u
  induction u with
  | nil =>
    intro b
    refine ⟨b, rfl, List.mem_cons_self b [], ?_, ?_⟩
    · intro x hx
      rcases List.mem_cons.mp hx with h | h
      · subst h
        exact le_refl _
      · simp at h
    · intro _ x _ _
      rw [List.indexOf_cons_self]
      exact Nat.zero_le _
  | cons a u' ih =>
    intro b
    by_cases hba : cnt b < cnt a
    · obtain ⟨r, hf, hmem, hmax, htie⟩ := ih a
      refine ⟨r, ?_, List.mem_cons_of_mem b hmem, ?_, ?_⟩
      · rw [List.foldl_cons]
        simpa [hba] using hf
      · intro x hx
        rcases List.mem_cons.mp hx with h | h
        · subst h
          exact le_trans hba.le (hmax a (List.mem_cons_self a u'))
        · exact hmax x h
      · intro hnd x hx hcx
        have hb_nin : b ∉ a :: u' := (List.nodup_cons.mp hnd).1
        have hnd' : (a :: u').Nodup := (List.nodup_cons.mp hnd).2
        have hra : cnt a ≤ cnt r := hmax a (List.mem_cons_self a u')
        rcases List.mem_cons.mp hx with h | h
        · subst h
          omega
        · have h1 := htie hnd' x h hcx
          have hrb : r ≠ b := fun hc => hb_nin (hc ▸ hmem)
          have hxb : x ≠ b := fun hc => hb_nin (hc ▸ h)
          rw [List.indexOf_cons_ne _ (Ne.symm hrb), List.indexOf_cons_ne _ (Ne.symm hxb)]
          exact Nat.succ_le_succ h1
    · obtain ⟨r, hf, hmem, hmax, htie⟩ := ih b
      have hab : cnt a ≤ cnt b := not_lt.mp hba
      have hbr : cnt b ≤ cnt r := hmax b (List.mem_cons_self b u')
      refine ⟨r, ?_, ?_, ?_, ?_⟩
      · rw [List.foldl_cons]
        simpa [hba] using hf
      · rcases List.mem_cons.mp hmem with h | h
        · subst h
          exact List.mem_cons_self r _
        · exact List.mem_cons_of_mem b (List.mem_cons_of_mem a h)
      · intro x hx
        rcases List.mem_cons.mp hx with h | h
        · subst h
          exact hbr
        · rcases List.mem_cons.mp h with h' | h'
          · subst h'
            exact le_trans hab hbr
          · exact hmax x (List.mem_cons_of_mem b h')
      · intro hnd x hx hcx
        have hb_nin : b ∉ a :: u' := (List.nodup_cons.mp hnd).1
        have hnd_au : (a :: u').Nodup := (List.nodup_cons.mp hnd).2
        have ha_nin : a ∉ u' := (List.nodup_cons.mp hnd_au).1
        have hu' : u'.Nodup := (List.nodup_cons.mp hnd_au).2
        have hb_nin_u' : b ∉ u' := fun hc => hb_nin (List.mem_cons_of_mem a hc)
        have hnd_bu : (b :: u').Nodup := List.nodup_cons.mpr ⟨hb_nin_u', hu'⟩
        have key : cnt b = cnt r → r = b := by
          intro hcb
          have h0 := htie hnd_bu b (List.mem_cons_self b u') hcb
          rw [List.indexOf_cons_self] at h0
          by_contra hrb
          rw [List.indexOf_cons_ne _ (Ne.symm hrb)] at h0
          exact Nat.not_succ_le_zero _ h0
        rcases List.mem_cons.mp hx with h | h
        · subst h
          rw [key hcx]
        · rcases List.mem_cons.mp h with h' | h'
          · subst h'
            have hcb : cnt b = cnt r := by omega
            rw [key hcb, List.indexOf_cons_self]
            exact Nat.zero_le _
          · have h1 := htie hnd_bu x (List.mem_cons_of_mem b h') hcx
            by_cases hr_b : r = b
            · rw [hr_b, List.indexOf_cons_self]
              exact Nat.zero_le _
            · have hr_u' : r ∈ u' := by
                rcases List.mem_cons.mp hmem with h2 | h2
                · exact absurd h2 hr_b
                · exact h2
              have hx_b : x ≠ b := fun hc => hb_nin_u' (hc ▸ h')
              have hr_a : r ≠ a := fun hc => ha_nin (hc ▸ hr_u')
              have hx_a : x ≠ a := fun hc => ha_nin (hc ▸ h')
              rw [List.indexOf_cons_ne _ (Ne.symm hr_b),
                  List.indexOf_cons_ne _ (Ne.symm hx_b)] at h1
              rw [List.indexOf_cons_ne _ (Ne.symm hr_b),
                  List.indexOf_cons_ne _ (Ne.symm hx_b),
                  List.indexOf_cons_ne _ (Ne.symm hr_a),
                  List.indexOf_cons_ne _ (Ne.symm hx_a)]
              exact Nat.succ_le_succ (Nat.succ_le_succ (Nat.succ_le_succ_iff.mp h1))

/-- `Counter.most_common(1)[0]` on a nonempty list returns a label of maximal
count, and among the labels of maximal count the one occurring first. -/
theorem mostCommon_spec (l : List String) (hne : l ≠ []) :
    ∃ me, mostCommon l = some (me, l.count me) ∧ me ∈ l ∧
      (∀ x ∈ l, l.count x ≤ l.count me) ∧
      (∀ x ∈ l, l.count x = l.count me → l.indexOf me ≤ l.indexOf x) := by
  have hfo_ne : firstOccs l ≠ [] := by
    obtain ⟨a, t, hl⟩ := List.exists_cons_of_ne_nil hne
    rw [hl]
    show firstOccsAux [] (a :: t) ≠ []
    rw [firstOccsAux, if_neg (List.not_mem_nil a)]
    exact List.cons_ne_nil _ _
  obtain ⟨h0, u, hu⟩ := List.exists_cons_of_ne_nil hfo_ne
  obtain ⟨r, hf, hmem, hmax, htie⟩ := foldl_pickBest_spec (fun e => l.count e) u h0
  have hnd : (h0 :: u).Nodup := by
    rw [← hu]
    exact nodup_firstOccsAux l []
  have hmem_l : ∀ z, z ∈ h0 :: u → z ∈ l := by
    intro z hz
    rw [← hu] at hz
    exact ((mem_firstOccsAux l [] z).mp hz).1
  have hl_mem : ∀ z, z ∈ l → z ∈ h0 :: u := by
    intro z hz
    rw [← hu]
    exact (mem_firstOccsAux l [] z).mpr ⟨hz, List.not_mem_nil z⟩
  refine ⟨r, ?_, hmem_l r hmem, ?_, ?_⟩
  · show pickBest (fun e => l.count e) (firstOccs l) = some (r, l.count r)
    rw [hu]
    unfold pickBest
    rw [List.foldl_cons]
    exact hf
  · intro x hx
    exact hmax x (hl_mem x hx)
  · intro x hx hcx
    have h1 := htie hnd x (hl_mem x hx) hcx
    rw [← hu] at h1
    exact (indexOf_firstOccsAux_le_iff l [] r x (hmem_l r hmem) hx
      (List.not_mem_nil r) (List.not_mem_nil x)).mp h1

/-- The unlocked branch of `get_stable_emotion`, written out. -/
theorem get_stable_emotion_of_unlocked (b : EmotionBuffer) (now : ℚ)
    (hl : b.locked_emotion = none) :
    b.get_stable_emotion now =
      (if b.predictions.length < b.min_predictions then ((none, 0), b)
       else if b.predictions.length ≠ 0 ∧ timeSpan b < b.buffer_duration * (7/10) then
         ((none, 0), b)
       else
         match mostCommon (labels b) with
         | none => ((none, 0), b)
         | some (me, cnt) =>
           if (cnt : ℚ) / (b.predictions.length : ℚ) < 2/5 then ((none, 0), b)
           else
             ((some me, avgConfFor b me),
              { b with
                  locked_emotion := some me
                  locked_confidence := some (avgConfFor b me)
                  lock_time := some now })) := by
  unfold get_stable_emotion
  rw [hl]

/-- C1 (amended): on an unlocked buffer with positive `min_predictions`
(whose constructor default is `5`; the kiosk passes `8` explicitly),
`get_stable_emotion` returns a verdict exactly when the buffered count
reaches `min_predictions`, the buffered span reaches 70% of
`buffer_duration`, and a plurality label holds at least 40% of the buffered
count; the verdict's label maximizes the buffered count and its confidence
is the mean over exactly the buffered predictions carrying that label;
otherwise the call returns `(none, 0)`. -/
theorem get_stable_emotion_verdict_iff (b : EmotionBuffer) (now : ℚ)
    (hl : b.locked_emotion = none) (hmin : 0 < b.min_predictions) :
    ((b.get_stable_emotion now).1.1.isSome ↔
       (b.min_predictions ≤ b.predictions.length ∧
        b.buffer_duration * (7/10) ≤ b.timeSpan ∧
        ∃ e ∈ b.labels, (∀ x ∈ b.labels, b.labels.count x ≤ b.labels.count e) ∧
          (2:ℚ)/5 ≤ (b.labels.count e : ℚ) / (b.predictions.length : ℚ))) ∧
    (∀ e c, (b.get_stable_emotion now).1 = (some e, c) →
       e ∈ b.labels ∧ (∀ x ∈ b.labels, b.labels.count x ≤ b.labels.count e) ∧
       c = b.avgConfFor e) ∧
    ((b.get_stable_emotion now).1.1 = none → (b.get_stable_emotion now).1.2 = 0) := by
  have hrw := get_stable_emotion_of_unlocked b now hl
  by_cases h1 : b.predictions.length < b.min_predictions
  · rw [hrw, if_pos h1]
    refine ⟨?_, ?_, ?_⟩
    · simp only [Option.isSome_none, Bool.false_eq_true, false_iff]
      rintro ⟨hc, -, -⟩
      exact absurd hc (not_le.mpr h1)
    · rintro e c hec
      simp at hec
    · intro _
      rfl
  · have hlen_pos : 0 < b.predictions.length := lt_of_lt_of_le hmin (not_lt.mp h1)
    have hn0 : b.predictions.length ≠ 0 := Nat.pos_iff_ne_zero.mp hlen_pos
    by_cases h2 : timeSpan b < b.buffer_duration * (7/10)
    · rw [hrw, if_neg h1, if_pos ⟨hn0, h2⟩]
      refine ⟨?_, ?_, ?_⟩
      · simp only [Option.isSome_none, Bool.false_eq_true, false_iff]
        rintro ⟨-, hsp, -⟩
        exact absurd hsp (not_le.mpr h2)
      · rintro e c hec
        simp at hec
      · intro _
        rfl
    · have hspan := not_lt.mp h2
      have hlab_len : b.labels.length = b.predictions.length := by
        unfold EmotionBuffer.labels
        exact List.length_map _ _
      have hlne : b.labels ≠ [] := by
        intro hc
        rw [hc] at hlab_len
        simp at hlab_len
        omega
      obtain ⟨me, hmc, hmem, hmax, htie⟩ := mostCommon_spec b.labels hlne
      rw [hrw, if_neg h1, if_neg (fun h => absurd h.2 h2)]
      simp only [hmc]
      by_cases h3 : ((b.labels.count me : ℚ)) / (b.predictions.length : ℚ) < 2/5
      · rw [if_pos h3]
        refine ⟨?_, ?_, ?_⟩
        · simp only [Option.isSome_none, Bool.false_eq_true, false_iff]
          rintro ⟨-, -, e, hemem, hemax, heratio⟩
          have hcnt_eq : b.labels.count e = b.labels.count me :=
            le_antisymm (hmax e hemem) (hemax me hmem)
          rw [hcnt_eq] at heratio
          exact absurd heratio (not_le.mpr h3)
        · rintro e c hec
          simp at hec
        · intro _
          rfl
      · rw [if_neg h3]
        refine ⟨?_, ?_, ?_⟩
        · simp only [Option.isSome_some, true_iff]
          exact ⟨not_lt.mp h1, hspan, me, hmem, hmax, not_lt.mp h3⟩
        · rintro e c hec
          simp only [Prod.mk.injEq, Option.some.injEq] at hec
          obtain ⟨hme, hc⟩ := hec
          subst hme
          exact ⟨hmem, hmax, hc.symm⟩
        · intro hcon
          simp at hcon

/-- Counterexample to C1 as stated: the `min_predictions` constructor default
is `5`, not `8` (main.py passes `8` explicitly at its call site). -/
theorem min_predictions_default_is_five :
    EmotionBuffer.initDefault.min_predictions = 5 ∧ (5 : ℕ) ≠ 8 :=
  ⟨rfl, by decide⟩

/-- Witness for C1: `bufC1` locks "Happy" with mean confidence `5/8`, the
mean of the two Happy confidences. -/
theorem get_stable_emotion_verdict_iff_witness :
    (bufC1.get_stable_emotion 9).1 = (some "Happy", 5/8) ∧
    ("Happy" ∈ bufC1.labels ∧
     (∀ x ∈ bufC1.labels, bufC1.labels.count x ≤ bufC1.labels.count "Happy") ∧
     (5/8 : ℚ) = bufC1.avgConfFor "Happy") := by
  have hfil : bufC1.predictions.filter (fun p => p.2.1 = "Happy") =
      [(0, "Happy", 1/2), (5/2, "Happy", 3/4)] := by
    simp [bufC1, List.filter_cons]
  have havg : bufC1.avgConfFor "Happy" = 5/8 := by
    unfold EmotionBuffer.avgConfFor
    rw [hfil]
    norm_num
  have heval : (bufC1.get_stable_emotion 9).1 = (some "Happy", 5/8) := by
    rw [get_stable_emotion_of_unlocked bufC1 9 rfl]
    rw [show timeSpan bufC1 = 11/4 - 0 from rfl]
    simp only [show mostCommon bufC1.labels = some ("Happy", 2) from rfl]
    rw [if_neg (show ¬(bufC1.predictions.length < bufC1.min_predictions) from by
          norm_num [bufC1])]
    rw [if_neg (show ¬(bufC1.predictions.length ≠ 0 ∧
          (11/4 : ℚ) - 0 < bufC1.buffer_duration * (7/10)) from by norm_num [bufC1])]
    rw [if_neg (show ¬(((2 : ℕ) : ℚ) / (bufC1.predictions.length : ℚ) < 2/5) from by
          norm_num [bufC1])]
    rw [havg]
  refine ⟨heval, ?_⟩
  exact (get_stable_emotion_verdict_iff bufC1 9 rfl (by decide)).2.1 "Happy" (5/8) heval

/-- C10: when a fresh (unlocked) `get_stable_emotion` call returns a verdict
label, that label maximizes the buffered count and, among the labels tied at
that count, is the one with the earliest first occurrence in the buffered
label sequence — the stable order of `Counter.most_common`, a function of the
buffered sequence alone. -/
theorem verdict_tie_breaks_earliest (b : EmotionBuffer) (now : ℚ) (e : String) (c : ℚ)
    (hl : b.locked_emotion = none)
    (he : (b.get_stable_emotion now).1 = (some e, c)) :
    e ∈ b.labels ∧
    (∀ x ∈ b.labels, b.labels.count x ≤ b.labels.count e) ∧
    (∀ x ∈ b.labels, b.labels.count x = b.labels.count e →
       b.labels.indexOf e ≤ b.labels.indexOf x) := by
  rw [get_stable_emotion_of_unlocked b now hl] at he
  by_cases h1 : b.predictions.length < b.min_predictions
  · rw [if_pos h1] at he
    simp at he
  · rw [if_neg h1] at he
    by_cases h2 : b.predictions.length ≠ 0 ∧ timeSpan b < b.buffer_duration * (7/10)
    · rw [if_pos h2] at he
      simp at he
    · rw [if_neg h2] at he
      by_cases hlne : b.labels = []
      · have hmcnil : mostCommon b.labels = none := by
          rw [hlne]
          rfl
        simp only [hmcnil] at he
        simp at he
      · obtain ⟨me, hmc, hmem, hmax, htie⟩ := mostCommon_spec b.labels hlne
        simp only [hmc] at he
        by_cases h3 : ((b.labels.count me : ℚ)) / (b.predictions.length : ℚ) < 2/5
        · rw [if_pos h3] at he
          simp at he
        · rw [if_neg h3] at he
          simp only [Prod.mk.injEq, Option.some.injEq] at he
          obtain ⟨hme, -⟩ := he
          subst hme
          exact ⟨hmem, hmax, htie⟩

/-- Witness for C10: `bufC10` holds a 2-2 tie between "Sad" (first occurrence
index 0) and "Happy" (index 1); the verdict is "Sad". -/
theorem verdict_tie_breaks_earliest_witness :
    (bufC10.get_stable_emotion 9).1 = (some "Sad", 1) ∧
    ("Sad" ∈ bufC10.labels ∧
     (∀ x ∈ bufC10.labels, bufC10.labels.count x ≤ bufC10.labels.count "Sad") ∧
     (∀ x ∈ bufC10.labels, bufC10.labels.count x = bufC10.labels.count "Sad" →
        bufC10.labels.indexOf "Sad" ≤ bufC10.labels.indexOf x)) := by
  have hfil : bufC10.predictions.filter (fun p => p.2.1 = "Sad") =
      [(0, "Sad", 1), (2, "Sad", 1)] := by
    simp [bufC10, List.filter_cons]
  have havg : bufC10.avgConfFor "Sad" = 1 := by
    unfold EmotionBuffer.avgConfFor
    rw [hfil]
    norm_num
  have heval : (bufC10.get_stable_emotion 9).1 = (some "Sad", 1) := by
    rw [get_stable_emotion_of_unlocked bufC10 9 rfl]
    rw [show timeSpan bufC10 = 3 - 0 from rfl]
    simp only [show mostCommon bufC10.labels = some ("Sad", 2) from rfl]
    rw [if_neg (show ¬(bufC10.predictions.length < bufC10.min_predictions) from by
          norm_num [bufC10])]
    rw [if_neg (show ¬(bufC10.predictions.length ≠ 0 ∧
          (3 : ℚ) - 0 < bufC10.buffer_duration * (7/10)) from by norm_num [bufC10])]
    rw [if_neg (show ¬(((2 : ℕ) : ℚ) / (bufC10.predictions.length : ℚ) < 2/5) from by
          norm_num [bufC10])]
    rw [havg]
  refine ⟨heval, ?_⟩
  exact verdict_tie_breaks_earliest bufC10 9 "Sad" 1 rfl heval

end Kiosk
